import Mathlib

/-!
Shallow embedding of `src/projects.js`: the build ledger (`addBuild`),
the workspace reclaimer (`clearWorkspace` / `clearFolder`) and the job
validator (`isValid`), together with proofs about the behaviour the
specification describes.  Every definition is translated from the
JavaScript source; comments cite the source lines they embed.
-/

/-- JavaScript values, as far as `projects.js` can distinguish them.
Numbers are modelled as rationals (integers are exactly the rationals
with denominator 1), `nanV` models NaN, `strObjV` models a `String`
instance built with `new String`, and `objV plain fields` models an
object whose prototype is `Object.prototype` exactly when `plain` is
true (class instances and other prototype chains have `plain = false`).
Infinities and object reference identity are not modelled: no claim
compares the same object reference on both sides of a strict equality. -/
inductive JsVal where
  | undefV
  | nul
  | boolV (b : Bool)
  | numV (q : Rat)
  | nanV
  | strV (s : String)
  | strObjV (s : String)
  | objV (plain : Bool) (fields : List (String × JsVal))

/-- Truthiness, the test performed by the guard at line 259 of
`projects.js` (`if (!job) return false`).  Objects, including `String`
instances, are always truthy; `undefined`, `null`, `false`, `0`, NaN
and the empty string are falsy. -/
def jsTruthy : JsVal → Bool
  | .undefV => false
  | .nul => false
  | .boolV b => b
  | .numV q => q != 0
  | .nanV => false
  | .strV s => s != ""
  | .strObjV _ => true
  | .objV _ _ => true

/-- Test of line 260 of `projects.js`:
`Object.getPrototypeOf(job) === Object.prototype`.  Primitives autobox
to `Number.prototype`, `String.prototype` and so on, which all differ
from `Object.prototype`, so only plain objects pass. -/
def jsIsPlain : JsVal → Bool
  | .objV plain _ => plain
  | _ => false

/-- First binding of a key in a field list (JavaScript objects have at
most one binding per key, so this is exact for values built from
object literals or JSON). -/
def fieldLookup (fields : List (String × JsVal)) (k : String) : JsVal :=
  match fields with
  | [] => .undefV
  | (k2, v) :: rest => if k2 = k then v else fieldLookup rest k

/-- Property read `v.k` on a base value that is not `undefined` or
`null` (a read on those throws, which is modelled separately where it
can occur).  On a primitive base the keys used by `projects.js` are
absent from the prototype, so the read yields `undefined`. -/
def jsGet (v : JsVal) (k : String) : JsVal :=
  match v with
  | .objV _ fields => fieldLookup fields k
  | _ => .undefV

/-- Test of lines 261 to 263 of `projects.js`: the typeof operator
yields the string tag, or the value is an instance of String. -/
def jsIsString : JsVal → Bool
  | .strV _ => true
  | .strObjV _ => true
  | _ => false

/-- Test of line 266 of `projects.js`: `Number.isInteger(x)`. -/
def jsIsInteger : JsVal → Bool
  | .numV q => q.den == 1
  | _ => false

/-- Test of line 267 of `projects.js`: the typeof operator yields the
boolean tag, true only for primitive booleans and never for `Boolean`
instances. -/
def jsIsBool : JsVal → Bool
  | .boolV _ => true
  | _ => false

/-- JavaScript strict equality `===` as used at line 84 of
`projects.js` (`job.tags[tag] === builds[build].sha`).  NaN is not
strictly equal to anything (itself included), values of different
types are never strictly equal, and two object operands compare by
reference: the model treats object operands as distinct objects, which
is exact for every comparison the claims perform (tag values and shas
are primitives there). -/
def jsEq : JsVal → JsVal → Bool
  | .undefV, .undefV => true
  | .nul, .nul => true
  | .boolV a, .boolV b => a == b
  | .numV a, .numV b => a == b
  | .strV a, .strV b => a == b
  | _, _ => false

/-- Embedding of `isValid(job, compiled)`, lines 258 to 271 of
`projects.js`, keeping the guard order of the source. -/
def isValid (job : JsVal) (compiled : Bool) : Bool :=
  if !jsTruthy job then false
  else if !jsIsPlain job then false
  else if !jsIsString (jsGet job "author") then false
  else if !jsIsString (jsGet job "repo") then false
  else if !jsIsString (jsGet job "branch") then false
  else if compiled && !jsIsInteger (jsGet job "id") then false
  else if compiled && !jsIsBool (jsGet job "success") then false
  else true

/-- One entry of the builds ledger, the record literal of lines 64 to
75 of `projects.js`.  The copied commit fields hold whatever JavaScript
value the job carried; `tag` is absent (`none`) until the tag pass of
lines 82 to 90 sets it. -/
structure BuildRecord where
  id : Int
  sha : JsVal
  date : JsVal
  timestamp : JsVal
  message : JsVal
  author : JsVal
  avatar : JsVal
  license : JsVal
  candidate : String
  status : String
  tag : Option String := none

/-- The in-memory `builds` object of `addBuild`: the numeric build-id
keys, each bound to a record, plus the two scalar keys
`last_successful` and `latest` (lines 77 and 79).  Record iteration
order is not tracked: the tag pass of lines 82 to 90 updates each
record independently of the others, and visiting the two scalar keys
there never changes anything observable — `builds[build].sha` is
`undefined` for them, tag values compared with `===` are primitives in
every claim, and even on a match the write would target a property of
a primitive number, which is a silent no-op outside strict mode. -/
structure Builds where
  records : List (Int × BuildRecord)
  last_successful : Option Int := none
  latest : Option Int := none

/-- Assignment `builds[job.id] = record` (line 64): replaces the
record already bound at that id, or binds the id as a new key. -/
def setRecord (rs : List (Int × BuildRecord)) (k : Int) (v : BuildRecord) :
    List (Int × BuildRecord) :=
  match rs with
  | [] => [(k, v)]
  | (k2, v2) :: rest => if k2 = k then (k, v) :: rest else (k2, v2) :: setRecord rest k v

/-- Inner loop of lines 83 to 89: scan `job.tags` in iteration order
and return the first tag name whose value is strictly equal to `sha`;
the `break` at line 87 stops the scan at the first match. -/
def firstMatchingTag (tags : List (String × JsVal)) (sha : JsVal) : Option String :=
  match tags with
  | [] => none
  | (t, v) :: rest => if jsEq v sha then some t else firstMatchingTag rest sha

/-- Effect of the tag scan on one record (lines 84 to 87): the first
matching tag sets `candidate` to RELEASE and `tag` to its name; with
no match the record is left exactly as it was. -/
def applyTagsRecord (tags : List (String × JsVal)) (r : BuildRecord) : BuildRecord :=
  match firstMatchingTag tags r.sha with
  | some t => { r with candidate := "RELEASE", tag := some t }
  | none => r

/-- Tag pass of lines 82 to 90, run over every record of the ledger. -/
def applyTags (tags : List (String × JsVal)) (b : Builds) : Builds :=
  { b with records := b.records.map (fun kr => (kr.1, applyTagsRecord tags kr.2)) }

/-- Integer value of `job.id`, meaningful once `isValid job true`
holds (line 266 guarantees the id is an integer number). -/
def jobIdInt (job : JsVal) : Int :=
  match jsGet job "id" with
  | .numV q => q.num
  | _ => 0

/-- Boolean value of `job.success`, meaningful once `isValid job true`
holds (line 267 guarantees a primitive boolean, so the truthiness
tests of lines 74 and 77 read off its value). -/
def jobSuccess (job : JsVal) : Bool :=
  match jsGet job "success" with
  | .boolV b => b
  | _ => false

/-- Bindings enumerated by `for (let tag in job.tags)` (line 83): the
own fields for an object base, nothing for `undefined` or `null` (a
for-in over those iterates zero times).  A primitive string base would
enumerate its character indices; no claim passes one. -/
def jobTags (job : JsVal) : List (String × JsVal) :=
  match jsGet job "tags" with
  | .objV _ fields => fields
  | _ => []

/-- Construction of the record literal of lines 64 to 75.  Evaluating
`job.commit.sha` when `job.commit` is `undefined` or `null` throws a
TypeError before anything is inserted, modelled by `none`; any other
commit value yields its properties, `undefined` where absent. -/
def mkRecord (job : JsVal) : Option BuildRecord :=
  match jsGet job "commit" with
  | .undefV => none
  | .nul => none
  | commit =>
    some {
      id := jobIdInt job
      sha := jsGet commit "sha"
      date := jsGet commit "date"
      timestamp := jsGet commit "timestamp"
      message := jsGet commit "message"
      author := jsGet commit "author"
      avatar := jsGet commit "avatar"
      license := jsGet job "license"
      candidate := "DEVELOPMENT"
      status := if jobSuccess job then "SUCCESS" else "FAILURE" }

/-- Outcome of the `append` closure (lines 61 to 94) up to its
`writeFile` call: either a TypeError escaped while building the
record, or the ledger value handed to `writeFile`. -/
inductive AppendResult where
  | threw
  | built (b : Builds)

/-- The `append` closure of lines 61 to 94, applied to the in-memory
ledger in scope when it runs: build and insert the new record (line
64), update `last_successful` and `latest` (lines 77 and 79), then run
the tag pass (lines 82 to 90). -/
def runAppend (job : JsVal) (builds0 : Builds) : AppendResult :=
  match mkRecord job with
  | none => .threw
  | some r =>
    let b1 : Builds := { builds0 with records := setRecord builds0.records (jobIdInt job) r }
    let b2 : Builds :=
      if jobSuccess job then { b1 with last_successful := some (jobIdInt job) } else b1
    let b3 : Builds := { b2 with latest := some (jobIdInt job) }
    .built (applyTags (jobTags job) b3)

/-- State of the `builds.json` file as the calls at lines 93, 98 and
99 can observe it: missing, present but unreadable, readable but not
parseable, or readable and parsed to a ledger value. -/
inductive LedgerFile where
  | absent
  | unreadable
  | corrupt
  | stored (b : Builds)

/-- Filesystem operation performed by `addBuild`, recorded in program
order: the `existsSync` probe, the `readFile` and the `writeFile`. -/
inductive FsOp where
  | existsCheck (p : String)
  | readF (p : String)
  | writeF (p : String)

/-- Settlement of the promise returned by `addBuild`: rejection with
the string of line 54, rejection with a thrown TypeError, a promise
that never settles, rejection of the `writeFile` at line 93, or
resolution with the written ledger. -/
inductive AddBuildResult where
  | invalidJob
  | typeError
  | hang
  | writeError
  | ok (written : Builds)

/-- A complete run of `addBuild`: its settlement and the filesystem
operations it performed, in order. -/
structure AddBuildRun where
  result : AddBuildResult
  ops : List FsOp

/-- String content of a JavaScript string value, primitive or String
instance; only applied under `isValid`, which guarantees the field is
one of the two. -/
def jsStringOf : JsVal → String
  | .strV s => s
  | .strObjV s => s
  | _ => ""

/-- Ledger path of line 58, with the fixed module-directory prefix of
`path.resolve` omitted. -/
def buildsPath (job : JsVal) : String :=
  jsStringOf (jsGet job "author") ++ "/" ++ jsStringOf (jsGet job "repo") ++ "/"
    ++ jsStringOf (jsGet job "branch") ++ "/builds.json"

/-- Embedding of `addBuild(job)`, lines 51 to 106.  `file` is the
state of `builds.json` and `writeOk` tells whether the final
`writeFile` succeeds.  Behaviour per file state, following the source:
invalid job rejects before any filesystem access (lines 53 to 56);
with the file absent (line 104) `append()` runs synchronously inside
the promise executor, so a TypeError thrown there rejects the promise;
with the file unreadable the rejection handler of `readFile` is
`append` itself (line 102), so the read error is swallowed and the
ledger is rebuilt from the empty object of line 59; with unparseable
contents `JSON.parse` throws inside the fulfillment handler (line
100) and the promise returned by `addBuild` never settles; with a
stored ledger the parsed value is appended to, and a TypeError thrown
inside the handler likewise leaves the promise unsettled. -/
def addBuild (job : JsVal) (file : LedgerFile) (writeOk : Bool) : AddBuildRun :=
  if !isValid job true then { result := .invalidJob, ops := [] }
  else
    let p := buildsPath job
    match file with
    | .absent =>
      match runAppend job { records := [] } with
      | .threw => { result := .typeError, ops := [.existsCheck p] }
      | .built b =>
        if writeOk then { result := .ok b, ops := [.existsCheck p, .writeF p] }
        else { result := .writeError, ops := [.existsCheck p, .writeF p] }
    | .unreadable =>
      match runAppend job { records := [] } with
      | .threw => { result := .hang, ops := [.existsCheck p, .readF p] }
      | .built b =>
        if writeOk then { result := .ok b, ops := [.existsCheck p, .readF p, .writeF p] }
        else { result := .writeError, ops := [.existsCheck p, .readF p, .writeF p] }
    | .corrupt => { result := .hang, ops := [.existsCheck p, .readF p] }
    | .stored b0 =>
      match runAppend job b0 with
      | .threw => { result := .hang, ops := [.existsCheck p, .readF p] }
      | .built b =>
        if writeOk then { result := .ok b, ops := [.existsCheck p, .readF p, .writeF p] }
        else { result := .writeError, ops := [.existsCheck p, .readF p, .writeF p] }

/-- Successful ledger transition: the new content of `builds.json`
when `addBuild` resolves after reading back the previously stored
ledger; `none` when the run does not resolve. -/
def addBuildOk (job : JsVal) (b : Builds) : Option Builds :=
  match (addBuild job (.stored b) true).result with
  | .ok b2 => some b2
  | _ => none

/-- Ledger after a sequence of resolving `addBuild` calls on the same
author, repo and branch, each call reading back what the previous one
wrote (the specification assumes lossless JSON round-tripping).  The
first call of a real history starts from an absent file, which yields
the same resolved ledger as a stored empty one. -/
def runBuilds (jobs : List JsVal) (b : Builds) : Option Builds :=
  match jobs with
  | [] => some b
  | j :: rest =>
    match addBuildOk j b with
    | some b2 => runBuilds rest b2
    | none => none

/-- Commit object with the given sha, used by concrete test jobs. -/
def commitOf (sha : String) : JsVal :=
  .objV true [("sha", .strV sha), ("date", .strV "d"), ("timestamp", .numV 0),
    ("message", .strV "m"), ("author", .strV "au"), ("avatar", .strV "av")]

/-- Concrete compiled-valid job for one fixed project and branch. -/
def mkJob (id : Int) (success : Bool) (sha : String) (tags : List (String × JsVal)) : JsVal :=
  .objV true [("author", .strV "alice"), ("repo", .strV "proj"), ("branch", .strV "main"),
    ("id", .numV (mkRat id 1)), ("success", .boolV success), ("commit", commitOf sha),
    ("license", .strV "MIT"), ("tags", .objV true tags)]

/-- The record `addBuild` builds from `mkJob id success sha tags`
before the tag pass runs. -/
def mkJobRecord (id : Int) (success : Bool) (sha : String) : BuildRecord where
  id := id
  sha := .strV sha
  date := .strV "d"
  timestamp := .numV 0
  message := .strV "m"
  author := .strV "au"
  avatar := .strV "av"
  license := .strV "MIT"
  candidate := "DEVELOPMENT"
  status := if success then "SUCCESS" else "FAILURE"
  tag := none

/-- Path of the working-files directory of line 175, with the fixed
module-directory prefix of `path.resolve` omitted. -/
def filesDir (job : JsVal) : String :=
  jsStringOf (jsGet job "author") ++ "/" ++ jsStringOf (jsGet job "repo") ++ "/"
    ++ jsStringOf (jsGet job "branch") ++ "/files"

/-- Outcome of `clearWorkspace`, lines 172 to 177: rejection with the
string of line 173, immediate resolution when the directory is absent
(line 175), or delegation of the named path to `clearFolder` (line
176). -/
inductive ClearWorkspaceResult where
  | invalidJob
  | resolvedNoop
  | delegated (p : String)

/-- Embedding of `clearWorkspace(job)`, lines 172 to 177.  `dirExists`
is the `existsSync` view of the filesystem.  The run also returns the
filesystem probes performed, in order; an invalid job is rejected
before any probe. -/
def clearWorkspace (job : JsVal) (dirExists : String → Bool) :
    ClearWorkspaceResult × List FsOp :=
  if !isValid job false then (.invalidJob, [])
  else if !dirExists (filesDir job) then (.resolvedNoop, [.existsCheck (filesDir job)])
  else (.delegated (filesDir job), [.existsCheck (filesDir job)])

namespace ClearFolder

/-- Report of one dispatched child `clearFolder` promise, in the
non-empty directory branch of lines 204 to 244: the child promise
settles once, either successfully (`next`, line 229) or with an error
(`cancel`, line 234).  Error identity is abstract. -/
inductive ChildReport where
  | ok
  | err (e : Nat)
deriving DecidableEq

/-- Settlement of the parent `clearFolder` promise. -/
inductive Settle where
  | resolved
  | rejected (e : Nat)
deriving DecidableEq

/-- State of the closures of lines 210 to 237 while the children of a
non-empty directory run: the `index` counter, the settlement of the
parent promise (a promise settles at most once; later calls to
resolve or reject are ignored) and whether the `rmdir` of line 215
has been invoked. -/
structure DirState where
  index : Nat
  settled : Option Settle
  rmdirAttempted : Bool
deriving DecidableEq

/-- First settlement wins: calling resolve or reject on the parent
promise leaves an already settled promise unchanged. -/
def settleOnce (st : Option Settle) (s : Settle) : Option Settle :=
  match st with
  | some s0 => some s0
  | none => some s

/-- Settlement produced by the `rmdir` callback of lines 215 to 222:
`rmdirRes` is `none` when the removal succeeds and carries the error
otherwise. -/
def rmdirSettle : Option Nat → Settle
  | none => .resolved
  | some e => .rejected e

/-- One child settlement processed by the parent machinery of lines
213 to 237, for a directory with `n` children: `next` (line 229)
increments `index` and runs `check` (lines 213 to 226), which invokes
`rmdir` exactly when `index` has reached `n`; `cancel` (line 234)
rejects with the child error (its assignment to the exhausted loop
variable has no effect, because the dispatch loop of line 239 ran to
completion synchronously before any child settled, so every child is
always dispatched). -/
def dirStep (n : Nat) (rmdirRes : Option Nat) (st : DirState) (r : ChildReport) : DirState :=
  match r with
  | .ok =>
    if st.index + 1 = n then
      { index := st.index + 1,
        settled := settleOnce st.settled (rmdirSettle rmdirRes),
        rmdirAttempted := true }
    else { st with index := st.index + 1 }
  | .err e => { st with settled := settleOnce st.settled (.rejected e) }

/-- Parent state after the children whose settlements are listed in
`trace` have reported, in settlement order.  A full run of the
non-empty directory branch processes a trace holding one report per
dispatched child, so `trace.length = n`; prefixes of that trace are
the intermediate states. -/
def dirRun (n : Nat) (rmdirRes : Option Nat) (trace : List ChildReport) : DirState :=
  trace.foldl (dirStep n rmdirRes) { index := 0, settled := none, rmdirAttempted := false }

/-- Error of the first failed child in settlement order, the value
the first call to `cancel` rejects with. -/
def firstError : List ChildReport → Option Nat
  | [] => none
  | .ok :: rest => firstError rest
  | .err e :: _ => some e

/-- Number of successful child reports in a trace. -/
def countOks : List ChildReport → Nat
  | [] => 0
  | .ok :: rest => countOks rest + 1
  | .err _ :: rest => countOks rest

end ClearFolder

namespace ClearFolder

theorem countOks_le_length (p : List ChildReport) : countOks p ≤ p.length := by
  induction p with
  | nil => simp [countOks]
  | cons c rest ih => cases c <;> simp [countOks] <;> omega

theorem firstError_none_countOks (p : List ChildReport) (h : firstError p = none) :
    countOks p = p.length := by
  induction p with
  | nil => simp [countOks]
  | cons c rest ih =>
    cases c with
    | ok =>
      simp only [firstError] at h
      simp [countOks, ih h]
    | err e => simp [firstError] at h

theorem firstError_some_countOks (p : List ChildReport) (e : Nat)
    (h : firstError p = some e) : countOks p < p.length := by
  induction p with
  | nil => simp [firstError] at h
  | cons c rest ih =>
    cases c with
    | ok =>
      simp only [firstError] at h
      have := ih h
      simp only [countOks, List.length_cons]
      omega
    | err e2 =>
      have := countOks_le_length rest
      simp only [countOks, List.length_cons]
      omega

theorem firstError_eq_none (p : List ChildReport) :
    firstError p = none ↔ ∀ e, ChildReport.err e ∉ p := by
  induction p with
  | nil => simp [firstError]
  | cons c rest ih =>
    cases c with
    | ok => simp [firstError, ih]
    | err e =>
      simp only [firstError]
      constructor
      · intro h; cases h
      · intro h; exact absurd (List.mem_cons_self _ _) (h e)

/-- Settlement of the parent promise once a sequence of reports with
first error `fe` has been absorbed into a promise whose settlement was
`s0`. -/
def settledAfter (s0 : Option Settle) (fe : Option Nat) : Option Settle :=
  match s0 with
  | some s => some s
  | none =>
    match fe with
    | some e => some (.rejected e)
    | none => none

theorem settledAfter_none (s0 : Option Settle) : settledAfter s0 none = s0 := by
  cases s0 <;> rfl

/-- While fewer than `n` successful reports have arrived, the parent
machinery only counts successes and records the first error: the
`rmdir` of line 215 is not invoked. -/
theorem foldl_dirStep_below (n : Nat) (rr : Option Nat) :
    ∀ (p : List ChildReport) (st : DirState), st.index + countOks p < n →
    p.foldl (dirStep n rr) st =
      { index := st.index + countOks p,
        settled := settledAfter st.settled (firstError p),
        rmdirAttempted := st.rmdirAttempted } := by
  intro p
  induction p with
  | nil =>
    intro st _
    obtain ⟨i, s, a⟩ := st
    simp [countOks, firstError, settledAfter_none]
  | cons c rest ih =>
    intro st h
    cases c with
    | ok =>
      have hne : st.index + 1 ≠ n := by
        simp only [countOks] at h; omega
      rw [List.foldl_cons]
      have hstep : dirStep n rr st .ok = { st with index := st.index + 1 } := by
        simp [dirStep, hne]
      rw [hstep, ih { st with index := st.index + 1 }
        (by simp only [countOks] at h ⊢; omega)]
      simp only [countOks, firstError, DirState.mk.injEq, eq_self_iff_true,
        true_and, and_true]
      omega
    | err e =>
      rw [List.foldl_cons]
      have hstep : dirStep n rr st (.err e) =
          { st with settled := settleOnce st.settled (.rejected e) } := rfl
      rw [hstep, ih { st with settled := settleOnce st.settled (.rejected e) }
        (by simp only [countOks] at h ⊢; omega)]
      simp only [countOks, firstError, DirState.mk.injEq, eq_self_iff_true,
        true_and, and_true]
      cases hs : st.settled <;> simp [settledAfter, settleOnce, hs]

/-- When every child reports success, the parent machinery invokes
`rmdir` while absorbing the final report and settles with its result. -/
theorem foldl_dirStep_complete (n : Nat) (rr : Option Nat) :
    ∀ (p : List ChildReport) (st : DirState), firstError p = none →
    st.settled = none → 0 < p.length → st.index + p.length = n →
    p.foldl (dirStep n rr) st =
      { index := n, settled := some (rmdirSettle rr), rmdirAttempted := true } := by
  intro p
  induction p with
  | nil => intro st _ _ h0 _; simp at h0
  | cons c rest ih =>
    intro st hfe hs _ hlen
    cases c with
    | err e => simp [firstError] at hfe
    | ok =>
      rw [List.foldl_cons]
      cases rest with
      | nil =>
        have hidx : st.index + 1 = n := by simpa using hlen
        simp [dirStep, hidx, hs, settleOnce]
      | cons c2 rest2 =>
        have hne : st.index + 1 ≠ n := by
          simp only [List.length_cons] at hlen; omega
        have hstep : dirStep n rr st .ok = { st with index := st.index + 1 } := by
          simp [dirStep, hne]
        rw [hstep]
        exact ih { st with index := st.index + 1 }
          (by simpa only [firstError] using hfe) hs (by simp)
          (by simp only [List.length_cons] at hlen ⊢; omega)

end ClearFolder

/-- C3: in the non-empty directory branch of `clearFolder`, the
removal of the directory itself happens only after all dispatched
child deletions have reported — no strict prefix of the settlement
trace triggers the `rmdir` of line 215; if one or more children fail,
the removal is not attempted and the returned promise rejects with the
first observed child error; and once every dispatched child has
reported the operation is fully handled: the parent promise is
settled, with the `rmdir` result exactly when all children succeeded. -/
theorem clearFolder_aggregation (n : Nat) (rr : Option Nat)
    (trace : List ClearFolder.ChildReport) (hn : 0 < n) (hlen : trace.length = n) :
    (∀ k, k < n →
      (ClearFolder.dirRun n rr (trace.take k)).rmdirAttempted = false) ∧
    ((∃ e, ClearFolder.ChildReport.err e ∈ trace) →
      (ClearFolder.dirRun n rr trace).rmdirAttempted = false) ∧
    (∀ e, ClearFolder.firstError trace = some e →
      (ClearFolder.dirRun n rr trace).rmdirAttempted = false ∧
      (ClearFolder.dirRun n rr trace).settled = some (.rejected e)) ∧
    (ClearFolder.firstError trace = none →
      (ClearFolder.dirRun n rr trace).rmdirAttempted = true ∧
      (ClearFolder.dirRun n rr trace).settled = some (ClearFolder.rmdirSettle rr)) ∧
    (ClearFolder.dirRun n rr trace).settled ≠ none := by
  have hbelow : ∀ p : List ClearFolder.ChildReport, ClearFolder.countOks p < n →
      ClearFolder.dirRun n rr p =
        { index := ClearFolder.countOks p,
          settled := ClearFolder.settledAfter none (ClearFolder.firstError p),
          rmdirAttempted := false } := by
    intro p hp
    unfold ClearFolder.dirRun
    rw [ClearFolder.foldl_dirStep_below n rr p _ (by simpa using hp)]
    simp
  have h1 : ∀ k, k < n →
      (ClearFolder.dirRun n rr (trace.take k)).rmdirAttempted = false := by
    intro k hk
    have hcnt := ClearFolder.countOks_le_length (trace.take k)
    have htk : (trace.take k).length ≤ k := by
      simp [List.length_take]
    rw [hbelow _ (by omega)]
  have h2 : ∀ e, ClearFolder.firstError trace = some e →
      (ClearFolder.dirRun n rr trace).rmdirAttempted = false ∧
      (ClearFolder.dirRun n rr trace).settled = some (.rejected e) := by
    intro e he
    have hlt := ClearFolder.firstError_some_countOks trace e he
    rw [hbelow trace (by omega)]
    refine ⟨rfl, ?_⟩
    rw [he]
    rfl
  have h3 : ClearFolder.firstError trace = none →
      ClearFolder.dirRun n rr trace =
        { index := n, settled := some (ClearFolder.rmdirSettle rr),
          rmdirAttempted := true } := by
    intro hfe
    unfold ClearFolder.dirRun
    exact ClearFolder.foldl_dirStep_complete n rr trace _ hfe rfl (by omega)
      (by simp [hlen])
  refine ⟨h1, ?_, h2, ?_, ?_⟩
  · rintro ⟨e, he⟩
    cases hfe : ClearFolder.firstError trace with
    | none => exact absurd he ((ClearFolder.firstError_eq_none trace).mp hfe e)
    | some e2 => exact (h2 e2 hfe).1
  · intro hfe
    rw [h3 hfe]
    exact ⟨rfl, rfl⟩
  · cases hfe : ClearFolder.firstError trace with
    | none => rw [h3 hfe]; simp
    | some e => rw [(h2 e hfe).2]; simp

/-- Witness for `clearFolder_aggregation`: two children, the first
succeeds and the second fails with error 7; the parent promise rejects
with error 7 and the directory removal is not attempted. -/
theorem clearFolder_aggregation_witness :
    (ClearFolder.dirRun 2 none
      [ClearFolder.ChildReport.ok, ClearFolder.ChildReport.err 7]).settled =
      some (ClearFolder.Settle.rejected 7) ∧
    (ClearFolder.dirRun 2 none
      [ClearFolder.ChildReport.ok, ClearFolder.ChildReport.err 7]).rmdirAttempted = false :=
  have h := clearFolder_aggregation 2 none
    [ClearFolder.ChildReport.ok, ClearFolder.ChildReport.err 7] (by decide) (by decide)
  ⟨(h.2.2.1 7 (by decide)).2, (h.2.2.1 7 (by decide)).1⟩

/-- C8: for every job passing uncompiled validation, `clearWorkspace`
resolves the working-files directory `author/repo/branch/files`; when
that directory is absent it resolves immediately with no side effect
beyond the existence probe, otherwise it delegates exactly that path
to `clearFolder`. -/
theorem clearWorkspace_spec (job : JsVal) (ex : String → Bool)
    (h : isValid job false = true) :
    (ex (filesDir job) = false →
      clearWorkspace job ex = (.resolvedNoop, [.existsCheck (filesDir job)])) ∧
    (ex (filesDir job) = true →
      clearWorkspace job ex = (.delegated (filesDir job), [.existsCheck (filesDir job)])) := by
  constructor <;> intro hex <;> simp [clearWorkspace, h, hex]

/-- Witness for `clearWorkspace_spec` at a concrete job, for both an
absent and a present working-files directory. -/
theorem clearWorkspace_spec_witness :
    clearWorkspace (mkJob 1 true "abc" []) (fun _ => false) =
      (.resolvedNoop, [.existsCheck (filesDir (mkJob 1 true "abc" []))]) ∧
    clearWorkspace (mkJob 1 true "abc" []) (fun _ => true) =
      (.delegated (filesDir (mkJob 1 true "abc" [])),
        [.existsCheck (filesDir (mkJob 1 true "abc" []))]) :=
  ⟨(clearWorkspace_spec (mkJob 1 true "abc" []) (fun _ => false) (by decide)).1 rfl,
   (clearWorkspace_spec (mkJob 1 true "abc" []) (fun _ => true) (by decide)).2 rfl⟩

/-- Characterization of `isValid`: it returns true exactly when every
guard of lines 259 to 268 passes. -/
theorem isValid_eq_true_iff (job : JsVal) (c : Bool) :
    isValid job c = true ↔
      (jsTruthy job = true ∧ jsIsPlain job = true ∧
       jsIsString (jsGet job "author") = true ∧ jsIsString (jsGet job "repo") = true ∧
       jsIsString (jsGet job "branch") = true ∧
       (c = true → jsIsInteger (jsGet job "id") = true ∧
         jsIsBool (jsGet job "success") = true)) := by
  unfold isValid
  cases h1 : jsTruthy job <;> cases h2 : jsIsPlain job <;>
    cases h3 : jsIsString (jsGet job "author") <;>
      cases h4 : jsIsString (jsGet job "repo") <;>
        cases h5 : jsIsString (jsGet job "branch") <;> cases c <;>
          cases h6 : jsIsInteger (jsGet job "id") <;>
            cases h7 : jsIsBool (jsGet job "success") <;> simp

/-- A plain object is truthy. -/
theorem jsIsPlain_truthy (job : JsVal) (h : jsIsPlain job = true) :
    jsTruthy job = true := by
  cases job <;> simp_all [jsIsPlain, jsTruthy]

/-- C7: `isValid` rejects null, the empty record, any record with a
non-string branch, and any non-plain record even when its fields
match; with `compiled = true` it also rejects a missing or non-integer
id and a non-boolean success; and it returns true exactly when all
applicable checks pass. -/
theorem isValid_spec (c : Bool) :
    isValid .nul c = false ∧
    isValid (.objV true []) c = false ∧
    (∀ job, jsIsString (jsGet job "branch") = false → isValid job c = false) ∧
    (∀ fields, isValid (.objV false fields) c = false) ∧
    (∀ job, jsIsInteger (jsGet job "id") = false → isValid job true = false) ∧
    (∀ job, jsIsBool (jsGet job "success") = false → isValid job true = false) ∧
    (∀ job, isValid job c = true ↔
      (jsTruthy job = true ∧ jsIsPlain job = true ∧
       jsIsString (jsGet job "author") = true ∧ jsIsString (jsGet job "repo") = true ∧
       jsIsString (jsGet job "branch") = true ∧
       (c = true → jsIsInteger (jsGet job "id") = true ∧
         jsIsBool (jsGet job "success") = true))) := by
  refine ⟨by cases c <;> decide, by cases c <;> decide, ?_, ?_, ?_, ?_,
    fun job => isValid_eq_true_iff job c⟩
  · intro job h
    cases hv : isValid job c
    · rfl
    · exact absurd ((isValid_eq_true_iff job c).mp hv).2.2.2.2.1 (by simp [h])
  · intro fields
    simp [isValid, jsTruthy, jsIsPlain]
  · intro job h
    cases hv : isValid job true
    · rfl
    · exact absurd (((isValid_eq_true_iff job true).mp hv).2.2.2.2.2 rfl).1
        (by simp [h])
  · intro job h
    cases hv : isValid job true
    · rfl
    · exact absurd (((isValid_eq_true_iff job true).mp hv).2.2.2.2.2 rfl).2
        (by simp [h])

/-- Witness for `isValid_spec`: a record whose branch is a number is
rejected in compiled mode. -/
theorem isValid_spec_witness :
    isValid (.objV true [("author", .strV "a"), ("repo", .strV "r"),
      ("branch", .numV 1)]) true = false :=
  (isValid_spec true).2.2.1 _ (by decide)

/-- C10: validation is strictly weaker than the data model — every
plain record whose author, repo and branch are strings passes
uncompiled validation even when those strings are empty, and compiled
validation passes whenever id is any integer and success any boolean,
zero and negative ids included; neither non-emptiness of the key
fields nor positivity of id is checked. -/
theorem isValid_weaker_than_data_model :
    (∀ job, jsIsPlain job = true →
      jsIsString (jsGet job "author") = true → jsIsString (jsGet job "repo") = true →
      jsIsString (jsGet job "branch") = true → isValid job false = true) ∧
    (∀ job, jsIsPlain job = true →
      jsIsString (jsGet job "author") = true → jsIsString (jsGet job "repo") = true →
      jsIsString (jsGet job "branch") = true → jsIsInteger (jsGet job "id") = true →
      jsIsBool (jsGet job "success") = true → isValid job true = true) ∧
    isValid (.objV true [("author", .strV ""), ("repo", .strV ""),
      ("branch", .strV "")]) false = true ∧
    isValid (.objV true [("author", .strV ""), ("repo", .strV ""), ("branch", .strV ""),
      ("id", .numV 0), ("success", .boolV true)]) true = true ∧
    isValid (.objV true [("author", .strV "a"), ("repo", .strV "r"), ("branch", .strV "b"),
      ("id", .numV (mkRat (-5) 1)), ("success", .boolV false)]) true = true := by
  refine ⟨?_, ?_, by decide, by decide, by decide⟩
  · intro job hp ha hr hb
    exact (isValid_eq_true_iff job false).mpr
      ⟨jsIsPlain_truthy job hp, hp, ha, hr, hb, fun h => nomatch h⟩
  · intro job hp ha hr hb hi hs
    exact (isValid_eq_true_iff job true).mpr
      ⟨jsIsPlain_truthy job hp, hp, ha, hr, hb, fun _ => ⟨hi, hs⟩⟩

/-- Witness for `isValid_weaker_than_data_model`: empty strings pass
uncompiled validation. -/
theorem isValid_weaker_witness :
    isValid (.objV true [("author", .strV ""), ("repo", .strV ""),
      ("branch", .strV "")]) false = true :=
  isValid_weaker_than_data_model.1 _ (by decide) (by decide) (by decide) (by decide)

/-- C6: a job that fails the applicable validation makes the operation
fail with the invalid-job rejection before any side effect: `addBuild`
(compiled mode, line 53) rejects having performed no filesystem
operation whatever the file state, and `clearWorkspace` (uncompiled
mode, line 173) rejects having performed no filesystem probe. -/
theorem invalid_job_no_side_effect :
    (∀ job file writeOk, isValid job true = false →
      addBuild job file writeOk = { result := .invalidJob, ops := [] }) ∧
    (∀ job ex, isValid job false = false →
      clearWorkspace job ex = (.invalidJob, [])) := by
  constructor
  · intro job file writeOk h
    simp [addBuild, h]
  · intro job ex h
    simp [clearWorkspace, h]

/-- Witness for `invalid_job_no_side_effect` at the null job. -/
theorem invalid_job_no_side_effect_witness :
    addBuild .nul .absent true = { result := .invalidJob, ops := [] } ∧
    clearWorkspace .nul (fun _ => true) = (.invalidJob, []) :=
  ⟨invalid_job_no_side_effect.1 .nul .absent true (by decide),
   invalid_job_no_side_effect.2 .nul (fun _ => true) (by decide)⟩

/-- C9: passing compiled validation does not guarantee `addBuild` can
build the record — validation never inspects `commit` or `license`, so
a compiled-valid job without a `commit` field reaches the dereference
`job.commit.sha` (line 66) and the promise is rejected with the thrown
TypeError (file absent, where `append` runs inside the executor), not
with the invalid-job rejection. -/
theorem isValid_commit_unchecked :
    (∀ job writeOk, isValid job true = true → jsGet job "commit" = .undefV →
      (addBuild job .absent writeOk).result = .typeError) ∧
    (∀ job writeOk, isValid job true = true → jsGet job "commit" = .undefV →
      (addBuild job .absent writeOk).result ≠ .invalidJob) ∧
    isValid (.objV true [("author", .strV "a"), ("repo", .strV "r"), ("branch", .strV "b"),
      ("id", .numV 1), ("success", .boolV true)]) true = true := by
  have h1 : ∀ (job : JsVal) (writeOk : Bool), isValid job true = true →
      jsGet job "commit" = .undefV →
      (addBuild job .absent writeOk).result = .typeError := by
    intro job writeOk hv hc
    simp [addBuild, hv, runAppend, mkRecord, hc]
  refine ⟨h1, ?_, by decide⟩
  intro job writeOk hv hc
  rw [h1 job writeOk hv hc]
  simp

/-- Witness for `isValid_commit_unchecked`: a concrete compiled-valid
job with no commit field is accepted by validation yet `addBuild`
rejects with the TypeError. -/
theorem isValid_commit_unchecked_witness :
    (addBuild (.objV true [("author", .strV "a"), ("repo", .strV "r"),
      ("branch", .strV "b"), ("id", .numV 1), ("success", .boolV true)])
      .absent true).result = .typeError :=
  isValid_commit_unchecked.1 _ true (by decide) rfl

/-- Fields of a build record other than `candidate` and `tag`. -/
def coreOf (r : BuildRecord) :
    Int × JsVal × JsVal × JsVal × JsVal × JsVal × JsVal × JsVal × String :=
  (r.id, r.sha, r.date, r.timestamp, r.message, r.author, r.avatar, r.license, r.status)

/-- Two build records agreeing on everything except possibly
`candidate` and `tag`. -/
def sameCore (r r2 : BuildRecord) : Prop :=
  coreOf r2 = coreOf r

/-- The tag pass changes only the `candidate` and `tag` fields of a
record. -/
theorem applyTagsRecord_sameCore (tags : List (String × JsVal)) (r : BuildRecord) :
    sameCore r (applyTagsRecord tags r) := by
  unfold applyTagsRecord
  cases firstMatchingTag tags r.sha <;> rfl

/-- Inversion of a resolving `addBuild`: the job was compiled-valid
and the record literal was built without a TypeError. -/
theorem addBuildOk_inv (job : JsVal) (b b2 : Builds) (h : addBuildOk job b = some b2) :
    isValid job true = true ∧ ∃ r, mkRecord job = some r := by
  unfold addBuildOk addBuild at h
  cases hv : isValid job true
  · rw [hv] at h
    simp at h
  · cases hr : mkRecord job
    · rw [hv] at h
      unfold runAppend at h
      rw [hr] at h
      simp at h
    · exact ⟨rfl, _, rfl⟩

/-- The ledger a resolving `addBuild` writes, in closed form: the new
record inserted at the job id, the two pointer keys updated as at
lines 77 and 79, then the tag pass applied to every record. -/
theorem addBuildOk_eq_some (job : JsVal) (b : Builds) (r : BuildRecord)
    (hv : isValid job true = true) (hr : mkRecord job = some r) :
    addBuildOk job b = some (applyTags (jobTags job)
      { records := setRecord b.records (jobIdInt job) r,
        last_successful :=
          if jobSuccess job then some (jobIdInt job) else b.last_successful,
        latest := some (jobIdInt job) }) := by
  unfold addBuildOk addBuild runAppend
  rw [hv, hr]
  cases hs : jobSuccess job <;> simp [hs]

/-- C5: every resolving `addBuild` sets `latest` to the job id
unconditionally and sets `last_successful` to the job id exactly when
the job succeeded, leaving it unchanged otherwise; in particular after
adding build 2 with success and then build 3 without, `latest` is 3
and `last_successful` is 2. -/
theorem addBuild_latest_pointers :
    (∀ job b b2, addBuildOk job b = some b2 →
      b2.latest = some (jobIdInt job) ∧
      b2.last_successful =
        (if jobSuccess job then some (jobIdInt job) else b.last_successful)) ∧
    (∃ bf, runBuilds [mkJob 2 true "abc" [], mkJob 3 false "def" []]
        { records := [] } = some bf ∧
      bf.latest = some 3 ∧ bf.last_successful = some 2) := by
  constructor
  · intro job b b2 h
    obtain ⟨hv, r, hr⟩ := addBuildOk_inv job b b2 h
    have heq := addBuildOk_eq_some job b r hv hr
    rw [h] at heq
    have hb2 := Option.some.inj heq
    rw [hb2]
    exact ⟨rfl, rfl⟩
  · exact ⟨_, rfl, rfl, rfl⟩

/-- Ledger value after adding build 3 (failure, sha def) to an empty
ledger, used as a concrete input for the pointer claim. -/
def ledger3 : Builds :=
  { records := [(3, mkJobRecord 3 false "def")], last_successful := none,
    latest := some 3 }

/-- Witness for `addBuild_latest_pointers`: a failed build updates
`latest` but leaves `last_successful` alone. -/
theorem addBuild_latest_pointers_witness :
    ledger3.latest = some 3 ∧ ledger3.last_successful = none :=
  addBuild_latest_pointers.1 (mkJob 3 false "def" []) { records := [] } ledger3 rfl

/-- A binding with a different id survives the assignment of line 64
unchanged. -/
theorem setRecord_mem_of_ne (rs : List (Int × BuildRecord)) (k : Int) (v : BuildRecord)
    (id2 : Int) (r : BuildRecord) (h : (id2, r) ∈ rs) (hne : id2 ≠ k) :
    (id2, r) ∈ setRecord rs k v := by
  induction rs with
  | nil => simp at h
  | cons p rest ih =>
    obtain ⟨k2, v2⟩ := p
    simp only [setRecord]
    by_cases hk : k2 = k
    · rw [if_pos hk]
      rcases List.mem_cons.mp h with h1 | h1
      · have h2 : id2 = k2 := congrArg Prod.fst h1
        exact absurd (h2.trans hk) hne
      · exact List.mem_cons_of_mem _ h1
    · rw [if_neg hk]
      rcases List.mem_cons.mp h with h1 | h1
      · exact List.mem_cons.mpr (Or.inl h1)
      · exact List.mem_cons.mpr (Or.inr (ih h1))

/-- The assigned binding itself is present after the assignment of
line 64. -/
theorem setRecord_self_mem (rs : List (Int × BuildRecord)) (k : Int) (v : BuildRecord) :
    (k, v) ∈ setRecord rs k v := by
  induction rs with
  | nil => simp [setRecord]
  | cons p rest ih =>
    obtain ⟨k2, v2⟩ := p
    simp only [setRecord]
    by_cases hk : k2 = k
    · rw [if_pos hk]
      exact List.mem_cons_self _ _
    · rw [if_neg hk]
      exact List.mem_cons_of_mem _ ih

/-- One resolving `addBuild` keeps every record whose id differs from
the new id, changing at most its `candidate` and `tag` fields. -/
theorem addBuildOk_preserves (job : JsVal) (b b2 : Builds)
    (h : addBuildOk job b = some b2) (id2 : Int) (r : BuildRecord)
    (hmem : (id2, r) ∈ b.records) (hne : jobIdInt job ≠ id2) :
    (id2, applyTagsRecord (jobTags job) r) ∈ b2.records := by
  obtain ⟨hv, rr, hr⟩ := addBuildOk_inv job b b2 h
  have heq := addBuildOk_eq_some job b rr hv hr
  rw [h] at heq
  rw [Option.some.inj heq]
  exact List.mem_map_of_mem _
    (setRecord_mem_of_ne b.records (jobIdInt job) rr id2 r hmem (Ne.symm hne))

/-- One resolving `addBuild` keeps every id present, whether or not it
collides with the new id. -/
theorem addBuildOk_presence (job : JsVal) (b b2 : Builds)
    (h : addBuildOk job b = some b2) (id2 : Int) (r : BuildRecord)
    (hmem : (id2, r) ∈ b.records) : ∃ r2, (id2, r2) ∈ b2.records := by
  obtain ⟨hv, rr, hr⟩ := addBuildOk_inv job b b2 h
  have heq := addBuildOk_eq_some job b rr hv hr
  rw [h] at heq
  rw [Option.some.inj heq]
  by_cases hk : id2 = jobIdInt job
  · subst hk
    exact ⟨applyTagsRecord (jobTags job) rr,
      List.mem_map_of_mem _ (setRecord_self_mem b.records (jobIdInt job) rr)⟩
  · exact ⟨applyTagsRecord (jobTags job) r,
      List.mem_map_of_mem _
        (setRecord_mem_of_ne b.records (jobIdInt job) rr id2 r hmem hk)⟩

/-- Record preservation along a sequence of resolving `addBuild`
calls whose ids avoid a given existing id. -/
theorem runBuilds_preserves (jobs : List JsVal) :
    ∀ b bf, runBuilds jobs b = some bf →
    ∀ id2 r, (id2, r) ∈ b.records → (∀ j ∈ jobs, jobIdInt j ≠ id2) →
    ∃ r2, (id2, r2) ∈ bf.records ∧ sameCore r r2 := by
  induction jobs with
  | nil =>
    intro b bf h id2 r hmem _
    have hb : b = bf := Option.some.inj (by simpa [runBuilds] using h)
    exact ⟨r, hb ▸ hmem, rfl⟩
  | cons j rest ih =>
    intro b bf h id2 r hmem hids
    cases hstep : addBuildOk j b with
    | none => simp [runBuilds, hstep] at h
    | some bmid =>
      have h2 : runBuilds rest bmid = some bf := by
        simpa [runBuilds, hstep] using h
      have hmid := addBuildOk_preserves j b bmid hstep id2 r hmem
        (hids j (List.mem_cons_self _ _))
      obtain ⟨r2, hmem2, hcore2⟩ := ih bmid bf h2 id2
        (applyTagsRecord (jobTags j) r) hmid
        (fun j2 hj2 => hids j2 (List.mem_cons_of_mem _ hj2))
      exact ⟨r2, hmem2, hcore2.trans (applyTagsRecord_sameCore (jobTags j) r)⟩

/-- Id presence along a sequence of resolving `addBuild` calls. -/
theorem runBuilds_presence (jobs : List JsVal) :
    ∀ b bf, runBuilds jobs b = some bf →
    ∀ id2 r, (id2, r) ∈ b.records → ∃ r2, (id2, r2) ∈ bf.records := by
  induction jobs with
  | nil =>
    intro b bf h id2 r hmem
    have hb : b = bf := Option.some.inj (by simpa [runBuilds] using h)
    exact ⟨r, hb ▸ hmem⟩
  | cons j rest ih =>
    intro b bf h id2 r hmem
    cases hstep : addBuildOk j b with
    | none => simp [runBuilds, hstep] at h
    | some bmid =>
      have h2 : runBuilds rest bmid = some bf := by
        simpa [runBuilds, hstep] using h
      obtain ⟨rmid, hmid⟩ := addBuildOk_presence j b bmid hstep id2 r hmem
      exact ih bmid bf h2 id2 rmid hmid

/-- C4: the ledger is append-only — across any sequence of resolving
`addBuild` calls, every id already present stays present, and when the
ids of the calls are distinct from an existing id, its record is
unchanged except possibly for the `candidate` and `tag` fields. -/
theorem addBuild_append_only :
    (∀ jobs b bf, runBuilds jobs b = some bf →
      ∀ id2 r, (id2, r) ∈ b.records → (∀ j ∈ jobs, jobIdInt j ≠ id2) →
      ∃ r2, (id2, r2) ∈ bf.records ∧ sameCore r r2) ∧
    (∀ jobs b bf, runBuilds jobs b = some bf →
      ∀ id2 r, (id2, r) ∈ b.records → ∃ r2, (id2, r2) ∈ bf.records) :=
  ⟨fun jobs => runBuilds_preserves jobs, fun jobs => runBuilds_presence jobs⟩

/-- Ledger value after adding build 1 (success, sha abc) to an empty
ledger. -/
def ledgerA : Builds :=
  { records := [(1, mkJobRecord 1 true "abc")], last_successful := some 1,
    latest := some 1 }

/-- Ledger value after further adding build 2 (success, sha def). -/
def ledgerAB : Builds :=
  { records := [(1, mkJobRecord 1 true "abc"), (2, mkJobRecord 2 true "def")],
    last_successful := some 2, latest := some 2 }

/-- Witness for `addBuild_append_only`: adding build 2 keeps the
record of build 1 with its core fields unchanged. -/
theorem addBuild_append_only_witness :
    ∃ r2, (1, r2) ∈ ledgerAB.records ∧ sameCore (mkJobRecord 1 true "abc") r2 :=
  addBuild_append_only.1 [mkJob 2 true "def" []] ledgerA ledgerAB rfl 1
    (mkJobRecord 1 true "abc") (List.mem_cons_self _ _)
    (fun j hj => by rw [List.mem_singleton] at hj; subst hj; decide)

/-- First-match characterization of the tag scan: it returns tag `t`
exactly when the tag list splits as a prefix of non-matching tags, the
binding of `t` with a matching value, and an arbitrary remainder. -/
theorem firstMatchingTag_eq_some (tags : List (String × JsVal)) (sha : JsVal)
    (t : String) :
    firstMatchingTag tags sha = some t ↔
      ∃ pre v post, tags = pre ++ (t, v) :: post ∧ jsEq v sha = true ∧
        ∀ tv ∈ pre, jsEq tv.2 sha = false := by
  induction tags with
  | nil =>
    constructor
    · intro h; cases h
    · rintro ⟨pre, v, post, hE, -, -⟩
      cases pre <;> simp at hE
  | cons tv rest ih =>
    obtain ⟨t2, v2⟩ := tv
    by_cases hq : jsEq v2 sha = true
    · simp only [firstMatchingTag, if_pos hq]
      constructor
      · intro h
        obtain rfl : t2 = t := Option.some.inj h
        exact ⟨[], v2, rest, by simp, hq, by simp⟩
      · rintro ⟨pre, v, post, hE, hv, hpre⟩
        cases pre with
        | nil =>
          simp only [List.nil_append, List.cons.injEq] at hE
          rw [(Prod.mk.injEq _ _ _ _ ▸ hE.1 : t2 = t ∧ v2 = v).1]
        | cons p pre2 =>
          simp only [List.cons_append, List.cons.injEq] at hE
          have hp2 : jsEq v2 sha = false := by
            have := hpre p (List.mem_cons_self _ _)
            rw [← hE.1] at this
            exact this
          rw [hp2] at hq
          cases hq
    · have hq2 : jsEq v2 sha = false := by
        cases hqv : jsEq v2 sha
        · rfl
        · exact absurd hqv hq
      simp only [firstMatchingTag, if_neg hq]
      constructor
      · intro h
        obtain ⟨pre, v, post, hE, hv, hpre⟩ := ih.mp h
        refine ⟨(t2, v2) :: pre, v, post, by rw [hE]; rfl, hv, ?_⟩
        intro tv2 htv2
        rcases List.mem_cons.mp htv2 with h1 | h1
        · rw [h1]
          exact hq2
        · exact hpre tv2 h1
      · rintro ⟨pre, v, post, hE, hv, hpre⟩
        cases pre with
        | nil =>
          simp only [List.nil_append, List.cons.injEq] at hE
          have hveq : v2 = v := (Prod.mk.injEq _ _ _ _ ▸ hE.1 : t2 = t ∧ v2 = v).2
          rw [hveq, hv] at hq2
          cases hq2
        | cons p pre2 =>
          simp only [List.cons_append, List.cons.injEq] at hE
          exact ih.mpr ⟨pre2, v, post, hE.2, hv,
            fun tv2 htv2 => hpre tv2 (List.mem_cons_of_mem _ htv2)⟩

/-- Record of build 1 after being flipped to a release candidate by
the later tagged build. -/
def flippedRec : BuildRecord :=
  { mkJobRecord 1 true "abc" with candidate := "RELEASE", tag := some "v1.0" }

/-- Ledger after adding build 1 (sha abc, no tags) and then build 2
(sha def, tags mapping v1.0 to abc): the earlier record is
retroactively tagged. -/
def ledgerFlip : Builds :=
  { records := [(1, flippedRec), (2, mkJobRecord 2 false "def")],
    last_successful := some 1, latest := some 2 }

/-- C2: after inserting the new record, `addBuild` re-runs tag
resolution over every record already in the ledger — for each record
the first tag of `job.tags` (in mapping iteration order) whose value
equals the sha of that record sets `candidate` to RELEASE and `tag` to
that tag name and stops the scan, and a record matching no tag is kept
unchanged; in particular a later build whose tags map v1.0 to abc
flips the earlier untagged record with sha abc to a tagged release
candidate even though the own sha of the new build differs. -/
theorem addBuild_tag_resolution :
    (∀ tags sha t, firstMatchingTag tags sha = some t ↔
      ∃ pre v post, tags = pre ++ (t, v) :: post ∧ jsEq v sha = true ∧
        ∀ tv ∈ pre, jsEq tv.2 sha = false) ∧
    (∀ job b b2, addBuildOk job b = some b2 →
      ∀ id2 r, (id2, r) ∈ b.records → id2 ≠ jobIdInt job →
      (∀ t, firstMatchingTag (jobTags job) r.sha = some t →
        (id2, { r with candidate := "RELEASE", tag := some t }) ∈ b2.records) ∧
      (firstMatchingTag (jobTags job) r.sha = none → (id2, r) ∈ b2.records)) ∧
    (runBuilds [mkJob 1 true "abc" [], mkJob 2 false "def" [("v1.0", .strV "abc")]]
        { records := [] } = some ledgerFlip ∧
      flippedRec.candidate = "RELEASE" ∧ flippedRec.tag = some "v1.0" ∧
      flippedRec.sha = .strV "abc" ∧ (mkJobRecord 2 false "def").sha = .strV "def") := by
  refine ⟨firstMatchingTag_eq_some, ?_, rfl, rfl, rfl, rfl, rfl⟩
  intro job b b2 h id2 r hmem hne
  have hmem2 := addBuildOk_preserves job b b2 h id2 r hmem (Ne.symm hne)
  constructor
  · intro t ht
    have hrec : applyTagsRecord (jobTags job) r =
        { r with candidate := "RELEASE", tag := some t } := by
      unfold applyTagsRecord
      rw [ht]
    rw [← hrec]
    exact hmem2
  · intro ht
    have hrec : applyTagsRecord (jobTags job) r = r := by
      unfold applyTagsRecord
      rw [ht]
    rw [← hrec]
    exact hmem2

/-- Witness for `addBuild_tag_resolution`: the concrete retroactive
flip of the build 1 record. -/
theorem addBuild_tag_resolution_witness :
    (1, flippedRec) ∈ ledgerFlip.records :=
  (addBuild_tag_resolution.2.1 (mkJob 2 false "def" [("v1.0", .strV "abc")])
    ledgerA ledgerFlip rfl 1 (mkJobRecord 1 true "abc")
    (List.mem_cons_self _ _) (by decide)).1 "v1.0" rfl

/-- C1 (amended): for a compiled-valid job whose record can be built,
if the ledger file exists but reading it fails, the read error is
silently suppressed — `addBuild` behaves exactly as if the file were
absent, resolves after rebuilding the ledger from the empty in-memory
object, and overwrites the file on disk; if the file is read but its
contents do not parse, the parse error is not surfaced to the caller:
the returned promise never settles and the on-disk ledger is not
overwritten. -/
theorem addBuild_corrupt_ledger (job : JsVal) (writeOk : Bool)
    (hv : isValid job true = true) (r : BuildRecord) (hr : mkRecord job = some r) :
    ((addBuild job .corrupt writeOk).result = .hang ∧
      ∀ p, FsOp.writeF p ∉ (addBuild job .corrupt writeOk).ops) ∧
    ((addBuild job .unreadable true).result = (addBuild job .absent true).result ∧
      (addBuild job .unreadable true).result =
        .ok (applyTags (jobTags job)
          { records := setRecord [] (jobIdInt job) r,
            last_successful :=
              if jobSuccess job then some (jobIdInt job) else none,
            latest := some (jobIdInt job) }) ∧
      FsOp.writeF (buildsPath job) ∈ (addBuild job .unreadable true).ops) := by
  refine ⟨⟨?_, ?_⟩, ?_, ?_, ?_⟩
  · simp [addBuild, hv]
  · intro p
    simp [addBuild, hv]
  · simp [addBuild, hv, runAppend, hr]
  · cases hs : jobSuccess job <;> simp [addBuild, hv, runAppend, hr, hs]
  · simp [addBuild, hv, runAppend, hr]

/-- Counterexample to C1 as stated: with the ledger file present but
unreadable, `addBuild` on a compiled-valid job does not fail at all —
it resolves with a ledger rebuilt from the single new record and
overwrites the on-disk file, and with unparseable contents it neither
resolves nor rejects instead of surfacing an error. -/
theorem addBuild_corrupt_ledger_cex :
    (addBuild (mkJob 1 true "abc" []) .unreadable true).result = .ok ledgerA ∧
    FsOp.writeF "alice/proj/main/builds.json" ∈
      (addBuild (mkJob 1 true "abc" []) .unreadable true).ops ∧
    (addBuild (mkJob 1 true "abc" []) .corrupt true).result = .hang := by
  refine ⟨rfl, ?_, rfl⟩
  show FsOp.writeF "alice/proj/main/builds.json" ∈
    [FsOp.existsCheck "alice/proj/main/builds.json",
     FsOp.readF "alice/proj/main/builds.json",
     FsOp.writeF "alice/proj/main/builds.json"]
  simp

/-- Witness for `addBuild_corrupt_ledger` at a concrete job. -/
theorem addBuild_corrupt_ledger_witness :
    (addBuild (mkJob 1 true "abc" []) .corrupt true).result = .hang ∧
    (addBuild (mkJob 1 true "abc" []) .unreadable true).result =
      (addBuild (mkJob 1 true "abc" []) .absent true).result :=
  have h := addBuild_corrupt_ledger (mkJob 1 true "abc" []) true (by decide)
    (mkJobRecord 1 true "abc") rfl
  ⟨h.1.1, h.2.1⟩
